import Mathlib

/-!
Shallow embedding of the FLMR retrieval-evaluation pipeline from
`examples/example_use_flmr.py`: ROI sanitization, multimodal sequence
composition, ROI crop-list construction, and per-query Recall@K
evaluation.  Machine floats are modelled as rationals; fallible Python
operations (dict lookup, list indexing, `np.max` of an empty array,
negative-index access on an empty list) are modelled with `Option`.
-/

namespace FLMR

/-- A bounding box in pixel coordinates, as parsed from an ROI string in
`tokenize_inputs` (`class_{xmin}_{ymin}_{xmax}_{ymax}`). -/
structure Box where
  xmin : ℚ
  ymin : ℚ
  xmax : ℚ
  ymax : ℚ
deriving DecidableEq

/-- ROI sanitization from `tokenize_inputs`: if both width and height of
the box are under 5 pixels, each undersized dimension is expanded by 2.5
pixels on each side, clamped to the image bounds.  The inner conditions
mirror the source's nested `if` statements (they test the original
coordinates, which the x-update does not change). -/
def sanitize (w h : ℚ) (b : Box) : Box :=
  if b.xmax - b.xmin < 5 ∧ b.ymax - b.ymin < 5 then
    { xmin := if b.xmax - b.xmin < 5 then max 0 (b.xmin - 2.5) else b.xmin
      xmax := if b.xmax - b.xmin < 5 then min w (b.xmax + 2.5) else b.xmax
      ymin := if b.ymax - b.ymin < 5 then max 0 (b.ymin - 2.5) else b.ymin
      ymax := if b.ymax - b.ymin < 5 then min h (b.ymax + 2.5) else b.ymax }
  else b

/-- A box is valid for an image of size `w × h` when every coordinate is
non-negative and within the image bounds. -/
def validBox (w h : ℚ) (b : Box) : Prop :=
  0 ≤ b.xmin ∧ b.xmin ≤ w ∧ 0 ≤ b.xmax ∧ b.xmax ≤ w ∧
  0 ≤ b.ymin ∧ b.ymin ≤ h ∧ 0 ≤ b.ymax ∧ b.ymax ≤ h

instance (w h : ℚ) (b : Box) : Decidable (validBox w h b) := by
  unfold validBox; infer_instance

/-- Attribute selection from `prepare_inputs`: walk `zip(attributes,
attribute_scores)` and append an attribute whenever its score exceeds the
threshold and fewer than `amax` attributes have been collected. -/
def selectAttributes (thres : ℚ) (amax : Nat) (attrs : List String)
    (scores : List ℚ) : List String :=
  (attrs.zip scores).foldl
    (fun acc p => if thres < p.2 ∧ acc.length < amax then acc ++ [p.1] else acc) []

/-- A detected object of a sample: class name, attribute names and the
parallel attribute scores. -/
structure DetectedObject where
  cls : String
  attributes : List String
  scores : List ℚ

/-- The caption field of a sample is either a bare string or a record
containing the caption (the source branches on `isinstance(..., dict)`). -/
inductive CaptionField where
  | plain (s : String)
  | wrapped (s : String)

/-- Unwrap the caption from its container if it is given as a record. -/
def unwrapCaption : CaptionField → String
  | CaptionField.plain s => s
  | CaptionField.wrapped s => s

/-- One VQA sample, restricted to the fields `prepare_inputs` reads when
composing the text sequence. -/
structure Sample where
  question : String
  objects : List DetectedObject
  img_ocr : List String
  img_caption : CaptionField

/-- Python's `str.strip()`: drop leading and trailing whitespace. -/
def pyStrip (s : String) : String :=
  String.mk (((s.data.dropWhile Char.isWhitespace).reverse.dropWhile
    Char.isWhitespace).reverse)

/-- OCR description normalization from `prepare_inputs`:
`description.strip()` followed by `replace("\n", " ")` (a single-character
pattern, hence a character map). -/
def normalizeDesc (s : String) : String :=
  String.mk ((pyStrip s).data.map (fun c => if c = '\n' then ' ' else c))

/-- OCR de-duplication loop from `prepare_inputs`: normalize each
description and append it unless it is already present. -/
def ocrDedup (anns : List String) : List String :=
  anns.foldl
    (fun acc ann =>
      if normalizeDesc ann ∈ acc then acc else acc ++ [normalizeDesc ann]) []

/-- The tokens contributed by one detected object: its selected
attributes, its class name, then the `<SOV>` separator. -/
def objectTokens (obj : DetectedObject) : List String :=
  selectAttributes 0.05 3 obj.attributes obj.scores ++ [obj.cls, "<SOV>"]

/-- The `vision_sentences` list built by `prepare_inputs`: the `<BOV>`
start token, the per-object tokens, the de-duplicated OCR descriptions,
and the `<EOV>` end token.  (In the source both `attribute_max = 3 > 0`
and `ocr = 1 > 0` hold, so both branches always run.) -/
def visionSentences (objects : List DetectedObject) (img_ocr : List String) :
    List String :=
  (objects.foldl (fun acc obj => acc ++ objectTokens obj) ["<BOV>"]
    ++ ocrDedup img_ocr) ++ ["<EOV>"]

/-- Python's `" ".join`. -/
def joinSpace (l : List String) : String := String.intercalate " " l

/-- The `text_sequence` composed by `prepare_inputs`: question segment,
vision segment and caption segment, joined with single spaces. -/
def composeTextSequence (s : Sample) : String :=
  let t1 := joinSpace (["<BOQ>"] ++ [s.question] ++ ["<EOQ>"])
  let t2 := t1 ++ " " ++ joinSpace (visionSentences s.objects s.img_ocr)
  t2 ++ " " ++ joinSpace (["<BOC>"] ++ [unwrapCaption s.img_caption] ++ ["<EOC>"])

/-- Spec-side first-occurrence de-duplication: keep each string the first
time it appears, preserving order. -/
def firstOccur (l : List String) : List String :=
  l.foldl (fun acc x => if x ∈ acc then acc else acc ++ [x]) []

/-- ROI list adjustment from `prepare_inputs`: pad with the last ROI when
fewer than `numROIs` exist (Python's `ROIs[-1]`, an error on an empty
list, hence `Option`), then truncate to the first `numROIs`. -/
def padTruncate (numROIs : Nat) (rois : List String) : Option (List String) :=
  if rois.length < numROIs then
    match rois.getLast? with
    | none => none
    | some last => some ((rois ++ List.replicate (numROIs - rois.length) last).take numROIs)
  else
    some (rois.take numROIs)

/-- The crop list built in `tokenize_inputs`: the full primary image
first, followed by one crop per adjusted ROI. -/
def crops (primary : String) (numROIs : Nat) (rois : List String) :
    Option (List String) :=
  (padTruncate numROIs rois).map (fun l => primary :: l)

/-- Case folding of a string, as Python's `str.lower()`. -/
def lowerStr (s : String) : String := String.mk (s.data.map Char.toLower)

/-- The hit test of `encode_and_search_batch`: a passage is a hit when
some gold answer, stripped and case-folded, occurs as a substring of the
case-folded passage text.  The fold mirrors the source's `found` flag. -/
def isHit (answers : List String) (text : String) : Bool :=
  answers.foldl
    (fun found a =>
      if (lowerStr (pyStrip a)).data <:+: (lowerStr text).data then true
      else found) false

/-- The `hit_list` of `encode_and_search_batch`: one binary indicator per
retrieved passage text, in rank order. -/
def hitList (answers : List String) (texts : List String) : List Nat :=
  texts.map (fun t => if isHit answers t then 1 else 0)

/-- `np.max` over a list of naturals: `none` on the empty list (NumPy
raises on an empty array), otherwise the maximum. -/
def npMax : List Nat → Option Nat
  | [] => none
  | x :: xs => some (xs.foldl max x)

/-- Per-query Recall@K from `encode_and_search_batch`:
`float(np.max(np.array(hit_list[:K])))`. -/
def recallAtK (K : Nat) (hl : List Nat) : Option Nat :=
  npMax (hl.take K)

/-- Sequence a list of `Option` computations, failing as soon as one
fails — the behaviour of a Python loop that may raise. -/
def optMapM (f : α → Option β) : List α → Option (List β)
  | [] => some []
  | a :: l =>
    match f a with
    | none => none
    | some b => (optMapM f l).map (fun bs => b :: bs)

/-- Per-query scoring from `encode_and_search_batch`: look the query id
up in the ranking dict (a `KeyError` when absent), resolve each retrieved
passage id to its text (an `IndexError` when out of range), build the hit
list and compute Recall@K for every requested cutoff. -/
def scoreQuery (ranking : List (Nat × List (Nat × ℚ))) (passages : List String)
    (Ks : List Nat) (qid : Nat) (answers : List String) : Option (List Nat) :=
  match ranking.lookup qid with
  | none => none
  | some docs =>
    match optMapM (fun i => passages.get? i) (docs.map Prod.fst) with
    | none => none
    | some texts =>
      optMapM (fun K => recallAtK K (hitList answers texts)) Ks

/-- The per-batch recall loop of `encode_and_search_batch`: score every
`(question_id, answers)` pair of the batch in order. -/
def processBatch (ranking : List (Nat × List (Nat × ℚ))) (passages : List String)
    (Ks : List Nat) (batch : List (Nat × List String)) :
    Option (List (Nat × List Nat)) :=
  optMapM (fun q => (scoreQuery ranking passages Ks q.1 q.2).map (fun rs => (q.1, rs))) batch

/-- Retrieved passage texts of the Recall scenario: the only passage
containing "paris" (case-folded) is at rank 2 of 5. -/
def scenarioTexts : List String :=
  ["The Eiffel Tower is tall.", "The capital is Paris, France.",
   "Rome has ruins.", "Berlin is big.", "Madrid is sunny."]

/-- Concrete searcher output used to probe cutoffs larger than the
corpus: query 0 retrieves all three passages of the corpus. -/
def cexRanking : List (Nat × List (Nat × ℚ)) := [(0, [(0, 1), (1, 1), (2, 1)])]

/-- A corpus of three passages. -/
def cexPassages : List String := ["alpha beta", "a paris guide", "gamma"]

/-- A one-query batch with gold answer "paris". -/
def cexBatch : List (Nat × List String) := [(0, ["paris"])]

/-! Helper lemmas. -/

theorem selectAttributes_steps (t : ℚ) (m : Nat) (l : List (String × ℚ)) :
    ∀ acc : List String, acc.length ≤ m →
      l.foldl (fun acc p => if t < p.2 ∧ acc.length < m then acc ++ [p.1] else acc) acc
        = acc ++ (((l.filter (fun p => decide (t < p.2))).map Prod.fst).take (m - acc.length)) := by
  induction l with
  | nil => intro acc _; simp
  | cons p l ih =>
    intro acc hacc
    by_cases hp : t < p.2
    · by_cases hl : acc.length < m
      · rw [List.foldl_cons, if_pos ⟨hp, hl⟩,
          ih (acc ++ [p.1]) (by simpa using hl)]
        have hm : m - acc.length = (m - (acc ++ [p.1]).length) + 1 := by
          simp only [List.length_append, List.length_singleton]; omega
        simp [List.filter_cons, hp, hm, List.take_succ_cons]
      · rw [List.foldl_cons, if_neg (fun hc => hl hc.2), ih acc hacc]
        have hm : m - acc.length = 0 := by omega
        simp [List.filter_cons, hp, hm]
    · rw [List.foldl_cons, if_neg (fun hc => hp hc.1), ih acc hacc]
      simp [List.filter_cons, hp]

theorem foldl_max_eq_foldr (xs : List Nat) : ∀ x : Nat,
    xs.foldl max x = max x (xs.foldr max 0) := by
  induction xs with
  | nil => intro x; simp
  | cons a xs ih =>
    intro x
    rw [List.foldl_cons, ih (max x a), List.foldr_cons, max_assoc]

theorem npMax_cons (x : Nat) (xs : List Nat) :
    npMax (x :: xs) = some ((x :: xs).foldr max 0) := by
  simp [npMax, foldl_max_eq_foldr]

theorem npMax_eq_some (l : List Nat) (r : Nat) (h : npMax l = some r) :
    r = l.foldr max 0 := by
  cases l with
  | nil => simp [npMax] at h
  | cons x xs => rw [npMax_cons] at h; exact (Option.some.inj h).symm

theorem foldr_max_le_iff (l : List Nat) (b : Nat) :
    l.foldr max 0 ≤ b ↔ ∀ y ∈ l, y ≤ b := by
  induction l with
  | nil => simp
  | cons a l ih => simp [List.foldr_cons, max_le_iff, ih]

theorem mem_le_foldr_max (l : List Nat) (y : Nat) (h : y ∈ l) :
    y ≤ l.foldr max 0 := by
  exact (foldr_max_le_iff l (l.foldr max 0)).1 le_rfl y h

theorem foldr_max_mem (l : List Nat) (h : l ≠ []) : l.foldr max 0 ∈ l := by
  induction l with
  | nil => exact absurd rfl h
  | cons a l ih =>
    cases l with
    | nil => simp
    | cons b t =>
      rw [List.foldr_cons]
      rcases max_choice a ((b :: t).foldr max 0) with hm | hm
      · rw [hm]; exact List.mem_cons_self a _
      · rw [hm]; exact List.mem_cons_of_mem a (ih (by simp))

theorem foldl_found_eq_any {α : Type} (P : α → Prop) [DecidablePred P]
    (l : List α) : ∀ b : Bool,
    l.foldl (fun found a => if P a then true else found) b
      = (b || l.any (fun a => decide (P a))) := by
  induction l with
  | nil => intro b; simp
  | cons a l ih =>
    intro b
    rw [List.foldl_cons, ih]
    by_cases hp : P a
    · simp [hp]
    · simp [hp]

theorem foldr_max_indicator {α : Type} (p : α → Bool) (l : List α) :
    (l.map (fun t => if p t then (1 : Nat) else 0)).foldr max 0
      = if l.any p then 1 else 0 := by
  induction l with
  | nil => simp
  | cons a l ih =>
    rw [List.map_cons, List.foldr_cons, ih]
    by_cases hp : p a = true
    · by_cases h2 : l.any p = true <;> simp [hp, h2]
    · simp [hp]

theorem npMax_map_indicator {α : Type} (p : α → Bool) (l : List α) (h : l ≠ []) :
    npMax (l.map (fun t => if p t then (1 : Nat) else 0))
      = some (if l.any p then 1 else 0) := by
  cases l with
  | nil => exact absurd rfl h
  | cons a l =>
    rw [List.map_cons, npMax_cons]
    have hfold := foldr_max_indicator p (a :: l)
    rw [List.map_cons] at hfold
    rw [hfold]

theorem foldl_append_eq_join {α β : Type} (g : α → List β) (l : List α) :
    ∀ init : List β,
    l.foldl (fun acc x => acc ++ g x) init = init ++ (l.map g).flatten := by
  induction l with
  | nil => intro init; simp
  | cons a l ih =>
    intro init
    rw [List.foldl_cons, ih, List.map_cons, List.flatten_cons, List.append_assoc]

theorem foldl_dedup_nodup (l : List String) : ∀ acc : List String, acc.Nodup →
    (l.foldl (fun acc x => if x ∈ acc then acc else acc ++ [x]) acc).Nodup := by
  induction l with
  | nil => intro acc h; simpa using h
  | cons a l ih =>
    intro acc hacc
    rw [List.foldl_cons]
    by_cases hm : a ∈ acc
    · rw [if_pos hm]; exact ih acc hacc
    · rw [if_neg hm]
      refine ih (acc ++ [a]) ?_
      simp [List.nodup_append, hacc, hm]

theorem foldl_dedup_sublist (l : List String) : ∀ acc : List String,
    (l.foldl (fun acc x => if x ∈ acc then acc else acc ++ [x]) acc).Sublist
      (acc ++ l) := by
  induction l with
  | nil => intro acc; simp
  | cons a l ih =>
    intro acc
    rw [List.foldl_cons]
    by_cases hm : a ∈ acc
    · rw [if_pos hm]
      refine (ih acc).trans ?_
      exact (List.sublist_cons_self a l).append_left acc
    · rw [if_neg hm]
      have h := ih (acc ++ [a])
      rw [List.append_assoc] at h
      simpa using h

theorem foldl_dedup_mem (l : List String) : ∀ (acc : List String) (x : String),
    x ∈ l.foldl (fun acc x => if x ∈ acc then acc else acc ++ [x]) acc
      ↔ x ∈ acc ∨ x ∈ l := by
  induction l with
  | nil => intro acc x; simp
  | cons a l ih =>
    intro acc x
    rw [List.foldl_cons]
    by_cases hm : a ∈ acc
    · rw [if_pos hm, ih]
      constructor
      · rintro (h | h)
        · exact Or.inl h
        · exact Or.inr (List.mem_cons_of_mem a h)
      · rintro (h | h)
        · exact Or.inl h
        · rcases List.mem_cons.1 h with rfl | h2
          · exact Or.inl hm
          · exact Or.inr h2
    · rw [if_neg hm, ih]
      simp only [List.mem_append, List.mem_singleton, List.mem_cons]
      tauto

theorem ocrDedup_eq_firstOccur (anns : List String) :
    ocrDedup anns = firstOccur (anns.map normalizeDesc) := by
  rw [firstOccur, List.foldl_map]
  rfl

theorem optMapM_some {α β : Type} (f : α → Option β) (l : List α)
    (h : ∀ a ∈ l, ∃ b, f a = some b) :
    ∃ l2, optMapM f l = some l2 ∧ l2.length = l.length := by
  induction l with
  | nil => exact ⟨[], rfl, rfl⟩
  | cons a l ih =>
    obtain ⟨b, hb⟩ := h a (List.mem_cons_self a l)
    obtain ⟨l2, hl2, hlen⟩ := ih (fun x hx => h x (List.mem_cons_of_mem a hx))
    refine ⟨b :: l2, ?_, by simp [hlen]⟩
    rw [optMapM, hb, hl2]
    rfl

theorem recallAtK_isSome (K : Nat) (hl : List Nat) (hne : hl ≠ [])
    (hK : 1 ≤ K) : ∃ r, recallAtK K hl = some r := by
  cases hl with
  | nil => exact absurd rfl hne
  | cons x xs =>
    obtain ⟨k, rfl⟩ : ∃ k, K = k + 1 := ⟨K - 1, by omega⟩
    rw [recallAtK, List.take_succ_cons]
    exact ⟨(xs.take k).foldl max x, rfl⟩

/-! Claim theorems. -/

/-- Claim C4: for every detected object the attributes appended to the
vision segment are, in original order, the attributes whose score exceeds
`attribute_thres = 0.05`, capped at `attribute_max = 3`; in particular
attributes `["red","tall","old","blue"]` with scores `[0.9,0.01,0.2,0.5]`
select `["red","old","blue"]` in that order. -/
theorem spec_C4_attribute_selection :
    (∀ (attrs : List String) (scores : List ℚ),
      selectAttributes 0.05 3 attrs scores
        = (((attrs.zip scores).filter (fun p => decide ((0.05 : ℚ) < p.2))).map
            Prod.fst).take 3)
    ∧ selectAttributes 0.05 3 ["red", "tall", "old", "blue"] [0.9, 0.01, 0.2, 0.5]
        = ["red", "old", "blue"] := by
  constructor
  · intro attrs scores
    have h := selectAttributes_steps 0.05 3 (attrs.zip scores) [] (by simp)
    simpa [selectAttributes] using h
  · norm_num [selectAttributes]

/-- Claim C5: a box whose width and height are both under 5 pixels, inside
an image leaving at least 2.5 pixels of margin on each side, is returned
by `sanitize` with each dimension expanded 2.5 pixels on each side clamped
to the image, and both resulting sides are at least 5 pixels. -/
theorem spec_C5_small_box_enlarged (w h : ℚ) (b : Box)
    (hxw : b.xmax - b.xmin < 5) (hyw : b.ymax - b.ymin < 5)
    (hx : b.xmin ≤ b.xmax) (hy : b.ymin ≤ b.ymax)
    (hml : 2.5 ≤ b.xmin) (hmr : b.xmax + 2.5 ≤ w)
    (hmt : 2.5 ≤ b.ymin) (hmb : b.ymax + 2.5 ≤ h) :
    sanitize w h b = ⟨max 0 (b.xmin - 2.5), max 0 (b.ymin - 2.5),
        min w (b.xmax + 2.5), min h (b.ymax + 2.5)⟩
    ∧ 5 ≤ (sanitize w h b).xmax - (sanitize w h b).xmin
    ∧ 5 ≤ (sanitize w h b).ymax - (sanitize w h b).ymin := by
  have hb : sanitize w h b = ⟨max 0 (b.xmin - 2.5), max 0 (b.ymin - 2.5),
      min w (b.xmax + 2.5), min h (b.ymax + 2.5)⟩ := by
    simp [sanitize, hxw, hyw]
  refine ⟨hb, ?_, ?_⟩
  · rw [hb]
    show 5 ≤ min w (b.xmax + 2.5) - max 0 (b.xmin - 2.5)
    rw [max_eq_right (by linarith), min_eq_right (by linarith)]
    linarith
  · rw [hb]
    show 5 ≤ min h (b.ymax + 2.5) - max 0 (b.ymin - 2.5)
    rw [max_eq_right (by linarith), min_eq_right (by linarith)]
    linarith

/-- Claim C5 witness: the box `(3, 3, 6, 6)` in a 100×100 image. -/
theorem spec_C5_small_box_enlarged_witness :
    sanitize 100 100 ⟨3, 3, 6, 6⟩ = ⟨max 0 ((3 : ℚ) - 2.5), max 0 ((3 : ℚ) - 2.5),
        min 100 ((6 : ℚ) + 2.5), min 100 ((6 : ℚ) + 2.5)⟩
    ∧ 5 ≤ (sanitize 100 100 ⟨3, 3, 6, 6⟩).xmax - (sanitize 100 100 ⟨3, 3, 6, 6⟩).xmin
    ∧ 5 ≤ (sanitize 100 100 ⟨3, 3, 6, 6⟩).ymax - (sanitize 100 100 ⟨3, 3, 6, 6⟩).ymin :=
  spec_C5_small_box_enlarged 100 100 ⟨3, 3, 6, 6⟩ (by norm_num) (by norm_num)
    (by norm_num) (by norm_num) (by norm_num) (by norm_num) (by norm_num) (by norm_num)

/-- Claim C6 counterexample: `sanitize` can return an out-of-bounds box
on both of its branches in a 100×100 image.  The box `(-10, 0, 10, 1)`
has width 20 ≥ 5, is returned unchanged, and keeps its negative `xmin`;
the box `(200, 200, 201, 201)` has both sides under 5, takes the
enlargement branch, and returns `xmin = 197.5 > 100` because each
coordinate is clamped on one side only.  Both refute that the result is
always non-negative and within bounds. -/
theorem spec_C6_cex :
    ¬ validBox 100 100 (sanitize 100 100 ⟨-10, 0, 10, 1⟩)
    ∧ ¬ validBox 100 100 (sanitize 100 100 ⟨200, 200, 201, 201⟩) := by
  constructor
  · norm_num [sanitize, validBox]
  · norm_num [sanitize, validBox]

/-- Claim C6 (amended): `sanitize` has no error conditions and always
returns a box, but the result need not be a valid (non-negative,
within-bounds) box.  When both the width and the height are under 5
pixels each coordinate is clamped on one side only — the returned `xmin`
and `ymin` are non-negative and the returned `xmax` and `ymax` are at
most the image width and height — which does not by itself place the box
within the image; otherwise the box is returned unchanged, so an
out-of-bounds box is not corrected. -/
theorem spec_C6_amended (w h : ℚ) (b : Box) :
    ((b.xmax - b.xmin < 5 ∧ b.ymax - b.ymin < 5) →
      0 ≤ (sanitize w h b).xmin ∧ (sanitize w h b).xmax ≤ w ∧
      0 ≤ (sanitize w h b).ymin ∧ (sanitize w h b).ymax ≤ h)
    ∧ (¬(b.xmax - b.xmin < 5 ∧ b.ymax - b.ymin < 5) → sanitize w h b = b) := by
  constructor
  · rintro ⟨h1, h2⟩
    have hb : sanitize w h b = ⟨max 0 (b.xmin - 2.5), max 0 (b.ymin - 2.5),
        min w (b.xmax + 2.5), min h (b.ymax + 2.5)⟩ := by
      simp [sanitize, h1, h2]
    rw [hb]
    exact ⟨le_max_left 0 _, min_le_left w _, le_max_left 0 _, min_le_left h _⟩
  · intro hneg
    simp [sanitize, hneg]

/-- Claim C6 (amended) witness: the undersized box `(1, 1, 2, 2)` in a
100×100 image is clamped within bounds. -/
theorem spec_C6_amended_witness :
    0 ≤ (sanitize 100 100 ⟨1, 1, 2, 2⟩).xmin
    ∧ (sanitize 100 100 ⟨1, 1, 2, 2⟩).xmax ≤ 100
    ∧ 0 ≤ (sanitize 100 100 ⟨1, 1, 2, 2⟩).ymin
    ∧ (sanitize 100 100 ⟨1, 1, 2, 2⟩).ymax ≤ 100 :=
  (spec_C6_amended 100 100 ⟨1, 1, 2, 2⟩).1 (by norm_num)

/-- Claim C1: for a sample whose ROI list is non-empty, the composed crop
list is `some` and has exactly `num_ROIs + 1` entries: the full primary
image first, then the first `num_ROIs` descriptors when at least that
many exist, or the original descriptors padded by repeating the last one
when fewer exist. -/
theorem spec_C1_crop_list (primary : String) (n : Nat) (rois : List String)
    (h : rois ≠ []) :
    crops primary n rois = some (primary ::
        (if rois.length < n
          then rois ++ List.replicate (n - rois.length) (rois.getLastD primary)
          else rois.take n))
    ∧ (primary :: (if rois.length < n
          then rois ++ List.replicate (n - rois.length) (rois.getLastD primary)
          else rois.take n)).length = n + 1 := by
  by_cases hlt : rois.length < n
  · have hlast : rois.getLast? = some (rois.getLastD primary) := by
      have hg := List.getLast?_eq_getLast_of_ne_nil h
      rw [hg]
      simp [List.getLastD_eq_getLast?, hg]
    have hlen : (rois ++ List.replicate (n - rois.length)
        (rois.getLastD primary)).length = n := by
      simp only [List.length_append, List.length_replicate]
      omega
    have htake : (rois ++ List.replicate (n - rois.length)
        (rois.getLastD primary)).take n
        = rois ++ List.replicate (n - rois.length) (rois.getLastD primary) :=
      List.take_of_length_le (le_of_eq hlen)
    constructor
    · rw [crops, padTruncate, if_pos hlt, hlast]
      simp [hlt, htake]
      omega
    · rw [if_pos hlt]
      simp only [List.length_cons, hlen]
  · constructor
    · rw [crops, padTruncate, if_neg hlt]
      simp [hlt]
    · rw [if_neg hlt]
      simp only [List.length_cons, List.length_take]
      omega

/-- Claim C1 witness: one ROI and `num_ROIs = 2` yields the primary image
followed by the ROI repeated, three images in total. -/
theorem spec_C1_crop_list_witness :
    crops "img" 2 ["a"] = some ["img", "a", "a"]
    ∧ ((["img", "a", "a"] : List String).length = 2 + 1) := by
  have hp := spec_C1_crop_list "img" 2 ["a"] (by simp)
  have h12 : (["a"] : List String).length < 2 := by simp
  rw [if_pos h12] at hp
  constructor
  · have := hp.1
    simpa using this
  · simp

/-- Claim C2: for a query with a non-empty hit list and cutoffs
`K1 < K2`, whenever both Recall values are defined the Recall at `K1` is
at most the Recall at `K2` — the hit window only grows with `K`. -/
theorem spec_C2_recall_monotone (hl : List Nat) (K1 K2 r1 r2 : Nat)
    (hne : hl ≠ []) (hK : K1 < K2)
    (h1 : recallAtK K1 hl = some r1) (h2 : recallAtK K2 hl = some r2) :
    r1 ≤ r2 := by
  have e1 : r1 = (hl.take K1).foldr max 0 := npMax_eq_some _ _ h1
  have e2 : r2 = (hl.take K2).foldr max 0 := npMax_eq_some _ _ h2
  rw [e1, e2, foldr_max_le_iff]
  intro y hy
  apply mem_le_foldr_max
  have heq : hl.take K1 = (hl.take K2).take K1 := by
    rw [List.take_take, min_eq_left hK.le]
  rw [heq] at hy
  exact List.take_subset _ _ hy

/-- Claim C2 witness: hit list `[0, 1]` with cutoffs 1 and 2. -/
theorem spec_C2_recall_monotone_witness :
    recallAtK 1 [0, 1] = some 0 ∧ recallAtK 2 [0, 1] = some 1 ∧ (0 : Nat) ≤ 1 :=
  ⟨rfl, rfl, spec_C2_recall_monotone [0, 1] 1 2 0 1 (by simp) (by omega) rfl rfl⟩

/-- Claim C10: a non-empty hit list with fewer than `K` entries yields
`Recall@K` without error: the slice of the first `K` positions is the
whole list, so the result is the maximum hit indicator over the entries
actually returned, with no zero-padding of missing ranks. -/
theorem spec_C10_short_list (hl : List Nat) (K : Nat) (hne : hl ≠ [])
    (hlt : hl.length < K) :
    recallAtK K hl = npMax hl
    ∧ ∃ r, npMax hl = some r ∧ r ∈ hl ∧ ∀ y ∈ hl, y ≤ r := by
  have htake : hl.take K = hl := List.take_of_length_le hlt.le
  constructor
  · rw [recallAtK, htake]
  · cases hl with
    | nil => exact absurd rfl hne
    | cons x xs =>
      exact ⟨(x :: xs).foldr max 0, npMax_cons x xs, foldr_max_mem _ (by simp),
        fun y hy => mem_le_foldr_max _ y hy⟩

/-- Claim C10 witness: hit list `[0, 1]` with cutoff 5. -/
theorem spec_C10_short_list_witness :
    recallAtK 5 [0, 1] = npMax [0, 1] ∧ recallAtK 5 [0, 1] = some 1 := by
  obtain ⟨heq, -⟩ := spec_C10_short_list [0, 1] 5 (by simp) (by simp)
  have hv : npMax [0, 1] = some 1 := rfl
  exact ⟨heq, by rw [heq, hv]⟩

/-- Claim C3: a retrieved passage is a hit iff some gold answer, stripped
and case-folded, is a substring of the case-folded passage text; Recall@K
is 1 iff some of the first `K` retrieved passages is a hit, else 0; and
with gold answer "paris" and the only matching passage at rank 2 of 5,
Recall@1 is 0 and Recall@5 is 1. -/
theorem spec_C3_hit_recall :
    (∀ (answers : List String) (text : String),
      isHit answers text = true
        ↔ ∃ a ∈ answers, (lowerStr (pyStrip a)).data <:+: (lowerStr text).data)
    ∧ (∀ (answers : List String) (texts : List String) (K : Nat),
        texts.take K ≠ [] →
        recallAtK K (hitList answers texts)
          = some (if (texts.take K).any (fun t => isHit answers t) then 1 else 0))
    ∧ recallAtK 1 (hitList ["paris"] scenarioTexts) = some 0
    ∧ recallAtK 5 (hitList ["paris"] scenarioTexts) = some 1 := by
  refine ⟨?_, ?_, ?_, ?_⟩
  · intro answers text
    rw [isHit, foldl_found_eq_any
      (fun a => (lowerStr (pyStrip a)).data <:+: (lowerStr text).data) answers false]
    simp [List.any_eq_true]
  · intro answers texts K hne
    rw [recallAtK, hitList, ← List.map_take, npMax_map_indicator _ _ hne]
  · decide
  · decide

/-- Claim C3 witness: the Recall@K shape evaluated at the scenario. -/
theorem spec_C3_hit_recall_witness :
    recallAtK 5 (hitList ["paris"] scenarioTexts)
      = some (if (scenarioTexts.take 5).any (fun t => isHit ["paris"] t)
          then 1 else 0) :=
  spec_C3_hit_recall.2.1 ["paris"] scenarioTexts 5 (by decide)

/-- Claim C7: the composed text sequence is the question, vision and
caption segments in that fixed order, each wrapped in its delimiter pair
and joined by single spaces; inside the vision segment the OCR
descriptions follow all objects with duplicates removed in
first-occurrence order and newlines collapsed to spaces, and the caption
is unwrapped from its record container. -/
theorem spec_C7_text_sequence :
    (∀ s : Sample, composeTextSequence s =
      joinSpace (["<BOQ>"] ++ [s.question] ++ ["<EOQ>"]) ++ " " ++
      joinSpace (["<BOV>"] ++ (s.objects.map objectTokens).flatten
        ++ firstOccur (s.img_ocr.map normalizeDesc) ++ ["<EOV>"]) ++ " " ++
      joinSpace (["<BOC>"] ++ [unwrapCaption s.img_caption] ++ ["<EOC>"]))
    ∧ (∀ l : List String, (firstOccur l).Nodup)
    ∧ (∀ l : List String, List.Sublist (firstOccur l) l)
    ∧ (∀ (l : List String) (x : String), x ∈ firstOccur l ↔ x ∈ l) := by
  refine ⟨?_, ?_, ?_, ?_⟩
  · intro s
    have hv : visionSentences s.objects s.img_ocr
        = ["<BOV>"] ++ (s.objects.map objectTokens).flatten
          ++ firstOccur (s.img_ocr.map normalizeDesc) ++ ["<EOV>"] := by
      rw [visionSentences, foldl_append_eq_join, ocrDedup_eq_firstOccur]
    simp only [composeTextSequence, hv]
  · intro l
    exact foldl_dedup_nodup l [] List.nodup_nil
  · intro l
    simpa using foldl_dedup_sublist l []
  · intro l x
    simpa using foldl_dedup_mem l [] x

/-- Claim C8: when the searcher's result mapping omits a query id that is
present in the batch, the whole batch fails (`none`, the `KeyError` of the
dict lookup) instead of scoring that query as zero hits. -/
theorem spec_C8_missing_lookup (ranking : List (Nat × List (Nat × ℚ)))
    (passages : List String) (Ks : List Nat) (batch : List (Nat × List String))
    (qid : Nat) (answers : List String)
    (hmem : (qid, answers) ∈ batch) (hmiss : ranking.lookup qid = none) :
    processBatch ranking passages Ks batch = none := by
  induction batch with
  | nil => simp at hmem
  | cons b bs ih =>
    rcases List.mem_cons.1 hmem with heq | hb
    · subst heq
      have hs : scoreQuery ranking passages Ks qid answers = none := by
        rw [scoreQuery, hmiss]
      simp [processBatch, optMapM, hs]
    · have hrest : processBatch ranking passages Ks bs = none := ih hb
      rw [processBatch] at hrest ⊢
      simp only [optMapM]
      cases hfb : (scoreQuery ranking passages Ks b.1 b.2).map
          (fun rs => (b.1, rs)) with
      | none => simp [hfb]
      | some v => simp [hfb, hrest]

/-- Claim C8 witness: an empty searcher result with a one-query batch. -/
theorem spec_C8_missing_lookup_witness :
    ((2 : Nat), (["x"] : List String)) ∈ [((2 : Nat), (["x"] : List String))]
    ∧ processBatch [] [] [1] [(2, ["x"])] = none :=
  ⟨by simp, spec_C8_missing_lookup [] [] [1] [(2, ["x"])] 2 ["x"] (by simp) rfl⟩

/-- Claim C9 counterexample: with a corpus of 3 passages and requested
cutoff `K = 5 > 3`, the run does not fail at all — the batch is processed
successfully (the searcher simply returned 3 candidates and Recall@5 is
computed over them), refuting the claimed fatal configuration error. -/
theorem spec_C9_cex :
    cexPassages.length < 5
    ∧ processBatch cexRanking cexPassages [5] cexBatch = some [(0, [1])] := by
  constructor
  · simp [cexPassages]
  · rfl

/-- Claim C9 (amended): a cutoff exceeding the corpus size is not checked
anywhere and causes no error: whenever the searcher returns a non-empty
candidate list of in-range passage ids for the query and all cutoffs are
at least 1, the query is scored successfully, with no bound relating `Ks`
to the corpus size. -/
theorem spec_C9_amended (ranking : List (Nat × List (Nat × ℚ)))
    (passages : List String) (Ks : List Nat) (qid : Nat)
    (answers : List String) (docs : List (Nat × ℚ))
    (hlook : ranking.lookup qid = some docs) (hne : docs ≠ [])
    (hrange : ∀ d ∈ docs, d.1 < passages.length)
    (hKs : ∀ K ∈ Ks, 1 ≤ K) :
    ∃ rs, scoreQuery ranking passages Ks qid answers = some rs := by
  obtain ⟨texts, htexts, hlen⟩ := optMapM_some (fun i => passages.get? i)
    (docs.map Prod.fst) (by
      intro i hi
      obtain ⟨d, hd, rfl⟩ := List.mem_map.1 hi
      exact ⟨passages.get ⟨d.1, hrange d hd⟩, List.get?_eq_get (hrange d hd)⟩)
  have htne : texts ≠ [] := by
    intro h0
    rw [h0] at hlen
    simp only [List.length_nil, List.length_map] at hlen
    exact hne (List.eq_nil_of_length_eq_zero hlen.symm)
  have hhl : hitList answers texts ≠ [] := by
    rw [hitList]
    simpa using htne
  obtain ⟨rs, hrs, -⟩ := optMapM_some
    (fun K => recallAtK K (hitList answers texts)) Ks
    (fun K hK => recallAtK_isSome K _ hhl (hKs K hK))
  refine ⟨rs, ?_⟩
  rw [scoreQuery, hlook]
  simp only [htexts]
  exact hrs

/-- Claim C9 (amended) witness: a one-passage corpus with cutoff 5. -/
theorem spec_C9_amended_witness :
    (scoreQuery [(0, [(0, (1 : ℚ))])] ["x"] [5] 0 []).isSome = true := by
  obtain ⟨rs, h⟩ := spec_C9_amended [(0, [(0, (1 : ℚ))])] ["x"] [5] 0 []
    [(0, 1)] rfl (by simp) (by simp) (by decide)
  rw [h]
  rfl

end FLMR
